import Mathlib

/-!
Shallow embedding of the ATLAS Open Data H→ZZ* demonstration notebook
(seminar_HiggsDemo.ipynb) and proofs about its selection, weighting and
histogram-filling logic.

Conventions of the embedding:
* Python floats are modelled as rationals (ℚ); decimal literals such as
  1.1, 0.9, 1.01, 0.99 become 11/10, 9/10, 101/100, 99/100.
* Awkward-array operations (element-wise arithmetic, `ak.sum(..., axis=1)`,
  boolean masking) become the corresponding `List` operations.
* Fallible Python operations (list indexing `[0]`, dictionary lookup) become
  `Option`; a raised exception in the async stream machinery becomes
  `Except String`.
* Calls into external libraries whose code is not part of the repository are
  abstract parameters: the four-vector invariant-mass calculation of the
  `vector`/`coffea` library (`mass4`), the `re.findall` call of the Python
  standard library (`re_findall`), the cross-section table `utils.infofile.infos`
  (`infos`) and the ServiceX executor streams (`execute`).
* A histogram `fill` call is recorded as data (which values, which weights,
  which category axis, which variation axis) rather than as mutation of bins:
  the claims under study are about which fills happen with which arguments.
-/

namespace HiggsDemo

/-- A lepton as delivered by the query: kinematic columns plus charge and
type identifier (`lep_charge`, `lep_typeid`). -/
structure Lepton where
  pt : ℚ
  eta : ℚ
  phi : ℚ
  energy : ℚ
  charge : ℤ
  typeid : ℤ
deriving DecidableEq

/-- One event as seen by the coffea processor: the lepton list (`events.lep`)
plus the per-event weight columns selected by the query. -/
structure Event where
  leptons : List Lepton
  mcWeight : ℚ
  scaleFactor : ℚ
  scaleFactorUP : ℚ
  scaleFactorDOWN : ℚ
deriving DecidableEq

/-- The metadata attached to a batch of events by the datasource
(`events.metadata`). -/
structure Metadata where
  dataset_category : String
  filename : String
deriving DecidableEq

/-- A batch of events handed to `HZZAnalysis.process`. -/
structure Batch where
  metadata : Metadata
  events : List Event
deriving DecidableEq

/-- One source event before the query runs: the columns of the input ROOT
files that `get_lepton_query` reads. -/
structure SourceEvent where
  lep_n : ℕ
  lep_pt : List ℚ
  lep_eta : List ℚ
  lep_phi : List ℚ
  lep_E : List ℚ
  lep_charge : List ℤ
  lep_type : List ℤ
  mcWeight : ℚ
  scaleFactor_ELE : ℚ
  scaleFactor_MUON : ℚ
  scaleFactor_LepTRIGGER : ℚ
  scaleFactor_PILEUP : ℚ
deriving DecidableEq

/-- The record produced by the `Select` of `get_lepton_query` for one kept
event. -/
structure QueryOut where
  lep_pt : List ℚ
  lep_eta : List ℚ
  lep_phi : List ℚ
  lep_energy : List ℚ
  lep_charge : List ℤ
  lep_typeid : List ℤ
  mcWeight : ℚ
  scaleFactor : ℚ
  scaleFactorUP : ℚ
  scaleFactorDOWN : ℚ
deriving DecidableEq

/-- The dictionary built by the `Select` lambda of `get_lepton_query`,
including the nominal four-factor scale-factor product and its two
systematic variations. -/
def querySelect (e : SourceEvent) : QueryOut :=
  { lep_pt := e.lep_pt
    lep_eta := e.lep_eta
    lep_phi := e.lep_phi
    lep_energy := e.lep_E
    lep_charge := e.lep_charge
    lep_typeid := e.lep_type
    mcWeight := e.mcWeight
    scaleFactor := e.scaleFactor_ELE * e.scaleFactor_MUON
      * e.scaleFactor_LepTRIGGER * e.scaleFactor_PILEUP
    scaleFactorUP := e.scaleFactor_ELE * e.scaleFactor_MUON
      * e.scaleFactor_LepTRIGGER * e.scaleFactor_PILEUP * (11 / 10)
    scaleFactorDOWN := e.scaleFactor_ELE * e.scaleFactor_MUON
      * e.scaleFactor_LepTRIGGER * e.scaleFactor_PILEUP * (9 / 10) }

/-- `get_lepton_query`: `source.Where(lambda e: e.lep_n == 4).Select(...)`,
modelled on a list of source events. -/
def get_lepton_query (source : List SourceEvent) : List QueryOut :=
  (source.filter fun e => e.lep_n == 4).map querySelect

/-- An entry of the cross-section table `utils.infofile.infos[sample]`. -/
structure XsecInfo where
  xsec : ℚ
  sumw : ℚ
  red_eff : ℚ
deriving DecidableEq

/-- `get_xsec_weight`: normalisation weight for a sample, `none` when the
sample is absent from the table (Python would raise `KeyError`). The table
itself lives in `utils/infofile.py`, outside the notebook, so it is a
parameter. -/
def get_xsec_weight (infos : String → Option XsecInfo) (sample : String) :
    Option ℚ :=
  let lumi : ℚ := 10000
  match infos sample with
  | none => none
  | some xsec_map => some ((lumi * xsec_map.xsec) / (xsec_map.sumw * xsec_map.red_eff))

/-- `lepton_filter(lep_charge, lep_type)`: per-event sum of charges must be 0
and per-event sum of type identifiers must be 44, 48 or 52. Element-wise
`ak.sum(-, axis=1)`, `ak.any(-, axis=0)` and `ak.all(-, axis=0)` become
`List.sum`, `||` and `&&`. -/
def lepton_filter (lep_charge lep_type : List (List ℤ)) : List Bool :=
  let sum_lep_charge := lep_charge.map List.sum
  let sum_lep_type := lep_type.map List.sum
  let good_lep_type := sum_lep_type.map fun s => s == 44 || s == 48 || s == 52
  List.zipWith (fun c g => (c == 0) && g) sum_lep_charge good_lep_type

/-- Boolean-mask selection `events[mask]` of awkward arrays. -/
def maskFilter {α : Type} : List α → List Bool → List α
  | [], _ => []
  | _ :: _, [] => []
  | a :: as, b :: bs => if b then a :: maskFilter as bs else maskFilter as bs

/-- The mask `lepton_filter(leptons.charge, leptons.typeid)` computed by
`HZZAnalysis.process` for a batch of events. -/
def leptonMask (events : List Event) : List Bool :=
  lepton_filter (events.map fun e => e.leptons.map Lepton.charge)
    (events.map fun e => e.leptons.map Lepton.typeid)

/-- The cut `events = events[lepton_filter(leptons.charge, leptons.typeid)]`. -/
def selectedEvents (events : List Event) : List Event :=
  maskFilter events (leptonMask events)

/-- The four-lepton invariant mass of one event,
`(leptons[:, 0] + leptons[:, 1] + leptons[:, 2] + leptons[:, 3]).mass / 1000`.
Indexing a lepton list with fewer than four entries is out of bounds and
gives `none`. The four-vector sum and `.mass` of the external vector library
are the abstract parameter `mass4`. -/
def eventMllll (mass4 : Lepton → Lepton → Lepton → Lepton → ℚ) (e : Event) :
    Option ℚ :=
  match e.leptons with
  | l0 :: l1 :: l2 :: l3 :: _ => some (mass4 l0 l1 l2 l3 / 1000)
  | _ => none

/-- Traverse a list with a fallible function; `none` as soon as one element
fails (a raised exception aborts the whole array operation). -/
def mapOrNone {α β : Type} (f : α → Option β) : List α → Option (List β)
  | [] => some []
  | a :: as =>
    match f a, mapOrNone f as with
    | some b, some bs => some (b :: bs)
    | _, _ => none

/-- One `mllllhist_MC.fill(mllll=..., dataset=..., variation=..., weight=...)`
call, recorded as its arguments. -/
structure MCFill where
  mllll : List ℚ
  dataset : String
  variation : String
  weight : List ℚ
deriving DecidableEq

/-- The dictionary `{"data": mllllhist_data, "MC": mllllhist_MC}` returned by
`HZZAnalysis.process`, with each histogram represented by the list of fill
calls it received. A fill of the data histogram without a `weight` argument
gives every entry weight 1 (`.Weight()` storage). -/
structure ProcessOutput where
  data : List (List (ℚ × ℚ))
  MC : List MCFill
deriving DecidableEq

/-- `HZZAnalysis.process`: apply the lepton filter, compute the four-lepton
invariant mass, then fill the data histogram (for the "Data" category) or
the MC histogram with the nominal weight and four systematic variations
(for every other category). `none` models a raised exception: a lepton index
out of bounds, `re.findall(...)[0]` on an empty match list, or a sample
missing from the cross-section table. -/
def HZZAnalysis.process (mass4 : Lepton → Lepton → Lepton → Lepton → ℚ)
    (re_findall : String → List String) (infos : String → Option XsecInfo)
    (batch : Batch) : Option ProcessOutput :=
  let dataset_category := batch.metadata.dataset_category
  let events := selectedEvents batch.events
  match mapOrNone (eventMllll mass4) events with
  | none => none
  | some mllll =>
    if dataset_category = "Data" then
      some { data := [mllll.map fun m => (m, 1)], MC := [] }
    else
      match (re_findall batch.metadata.filename).head? with
      | none => none
      | some sample =>
        match get_xsec_weight infos sample with
        | none => none
        | some xw =>
          let totalWeights := events.map fun e => xw * e.mcWeight * e.scaleFactor
          let totalWeightsUp := events.map fun e => xw * e.mcWeight * e.scaleFactorUP
          let totalWeightsDown := events.map fun e => xw * e.mcWeight * e.scaleFactorDOWN
          some { data := []
                 MC := [
                  { mllll := mllll, dataset := dataset_category,
                    variation := "nominal", weight := totalWeights },
                  { mllll := mllll, dataset := dataset_category,
                    variation := "scaleFactorUP", weight := totalWeightsUp },
                  { mllll := mllll, dataset := dataset_category,
                    variation := "scaleFactorDOWN", weight := totalWeightsDown },
                  { mllll := mllll.map (· * (101 / 100)), dataset := dataset_category,
                    variation := "m4lUP", weight := totalWeights },
                  { mllll := mllll.map (· * (99 / 100)), dataset := dataset_category,
                    variation := "m4lDOWN", weight := totalWeights }] }

/-- The pair of histograms a processing job produces, abstract in the
histogram type. -/
structure HistPair (H : Type) where
  data : H
  MC : H
deriving DecidableEq

/-- Iteration of `run_updates_stream` over the accumulator stream:
keep the last yielded item; an exception while iterating is caught and
replaced by `Exception(f"Failure while processing {name}")`. -/
def runUpdatesLoop {α : Type} (name : String) (acc : Option α) :
    List (Except String α) → Except String (Option α)
  | [] => .ok acc
  | .ok a :: rest => runUpdatesLoop name (some a) rest
  | .error _ :: _ => .error ("Failure while processing " ++ name)

/-- `run_updates_stream(accumulator_stream, name)`: run to get the last item
in the stream, starting from `coffea_info = None`. -/
def run_updates_stream {α : Type} (accumulator_stream : List (Except String α))
    (name : String) : Except String (Option α) :=
  runUpdatesLoop name none accumulator_stream

/-- The `asyncio.gather` over one `run_updates_stream(executor.execute(...))`
job per dataset category: all results in fileset order, or the first raised
exception. -/
def gatherJobs {H : Type} (execute : String → List (Except String (HistPair H))) :
    List String → Except String (List (Option (HistPair H)))
  | [] => .ok []
  | c :: cs =>
    match run_updates_stream (execute c) c with
    | .error e => .error e
    | .ok h =>
      match gatherJobs execute cs with
      | .error e => .error e
      | .ok hs => .ok (h :: hs)

/-- Python `sum` of a list of histograms, starting from 0. -/
def histSum {H : Type} [Zero H] [Add H] (l : List H) : H :=
  l.foldl (· + ·) 0

/-- `produce_all_histograms`: fan out one job per dataset category, gather
them, and sum the per-category "data" and "MC" histograms. The inner `Option`
is `none` when some stream yielded no item at all, so that `h["data"]`
subscripts `None` (a `TypeError` in Python). -/
def produce_all_histograms {H : Type} [Zero H] [Add H] (categories : List String)
    (execute : String → List (Except String (HistPair H))) :
    Except String (Option (HistPair H)) :=
  match gatherJobs execute categories with
  | .error e => .error e
  | .ok all_histogram_dicts =>
    .ok (match mapOrNone (fun h => h) all_histogram_dicts with
      | none => none
      | some hists =>
        some { data := histSum (hists.map HistPair.data)
               MC := histSum (hists.map HistPair.MC) })

/-! ### Helper lemmas -/

theorem lepton_filter_cons (c t : List ℤ) (cs ts : List (List ℤ)) :
    lepton_filter (c :: cs) (t :: ts) =
      ((c.sum == 0) && (t.sum == 44 || t.sum == 48 || t.sum == 52)) ::
        lepton_filter cs ts :=
  rfl

theorem mem_maskFilter {α : Type} {x : α} :
    ∀ {l : List α} {m : List Bool}, x ∈ maskFilter l m → x ∈ l := by
  intro l
  induction l with
  | nil => intro m h; simp [maskFilter] at h
  | cons a as ih =>
    intro m h
    cases m with
    | nil => simp [maskFilter] at h
    | cons b bs =>
      cases b with
      | true =>
        simp only [maskFilter, if_true] at h
        rcases List.mem_cons.mp h with h | h
        · exact h ▸ List.mem_cons_self a as
        · exact List.mem_cons_of_mem a (ih h)
      | false =>
        simp only [maskFilter, Bool.false_eq_true, if_false] at h
        exact List.mem_cons_of_mem a (ih h)

theorem mapOrNone_isSome {α β : Type} (f : α → Option β) :
    ∀ l : List α, (∀ x ∈ l, (f x).isSome) → ∃ ys, mapOrNone f l = some ys := by
  intro l
  induction l with
  | nil => exact fun _ => ⟨[], rfl⟩
  | cons a as ih =>
    intro h
    obtain ⟨b, hb⟩ := Option.isSome_iff_exists.mp (h a (List.mem_cons_self a as))
    obtain ⟨bs, hbs⟩ := ih fun x hx => h x (List.mem_cons_of_mem a hx)
    exact ⟨b :: bs, by simp [mapOrNone, hb, hbs]⟩

theorem mapOrNone_append {α β : Type} (f : α → Option β) :
    ∀ (l1 l2 : List α) (ys1 ys2 : List β), mapOrNone f l1 = some ys1 →
      mapOrNone f l2 = some ys2 → mapOrNone f (l1 ++ l2) = some (ys1 ++ ys2) := by
  intro l1
  induction l1 with
  | nil =>
    intro l2 ys1 ys2 h1 h2
    simp only [mapOrNone, Option.some.injEq] at h1
    subst h1
    simpa using h2
  | cons a as ih =>
    intro l2 ys1 ys2 h1 h2
    simp only [mapOrNone] at h1
    cases hfa : f a with
    | none => rw [hfa] at h1; simp at h1
    | some b =>
      rw [hfa] at h1
      cases has : mapOrNone f as with
      | none => rw [has] at h1; simp at h1
      | some bs =>
        rw [has] at h1
        simp only [Option.some.injEq] at h1
        subst h1
        have hrec := ih l2 bs ys2 has h2
        simp only [List.cons_append, mapOrNone, hfa]
        rw [show as.append l2 = as ++ l2 from rfl, hrec]

theorem lepton_filter_append (c1 c2 t1 t2 : List (List ℤ))
    (h : c1.length = t1.length) :
    lepton_filter (c1 ++ c2) (t1 ++ t2) =
      lepton_filter c1 t1 ++ lepton_filter c2 t2 := by
  simp only [lepton_filter, List.map_append]
  rw [List.zipWith_append]
  simp [h]

theorem maskFilter_append {α : Type} :
    ∀ (l1 : List α) (m1 : List Bool) (l2 : List α) (m2 : List Bool),
      m1.length = l1.length →
      maskFilter (l1 ++ l2) (m1 ++ m2) = maskFilter l1 m1 ++ maskFilter l2 m2 := by
  intro l1
  induction l1 with
  | nil =>
    intro m1 l2 m2 h
    rw [List.length_nil, List.length_eq_zero] at h
    subst h
    simp [maskFilter]
  | cons a as ih =>
    intro m1 l2 m2 h
    cases m1 with
    | nil => simp at h
    | cons b bs =>
      simp only [List.length_cons, Nat.succ.injEq] at h
      simp only [List.cons_append, maskFilter, List.append_eq]
      rw [ih bs l2 m2 h]
      cases b <;> simp

theorem leptonMask_length (events : List Event) :
    (leptonMask events).length = events.length := by
  simp [leptonMask, lepton_filter, List.length_zipWith]

theorem leptonMask_append (es1 es2 : List Event) :
    leptonMask (es1 ++ es2) = leptonMask es1 ++ leptonMask es2 := by
  simp only [leptonMask, List.map_append]
  exact lepton_filter_append _ _ _ _ (by simp)

theorem selectedEvents_append (es1 es2 : List Event) :
    selectedEvents (es1 ++ es2) = selectedEvents es1 ++ selectedEvents es2 := by
  simp only [selectedEvents, leptonMask_append]
  exact maskFilter_append es1 (leptonMask es1) es2 (leptonMask es2)
    (leptonMask_length es1)

theorem gatherJobs_ok {H : Type} (execute : String → List (Except String (HistPair H)))
    (h : String → HistPair H) :
    ∀ categories : List String,
      (∀ c ∈ categories, run_updates_stream (execute c) c = Except.ok (some (h c))) →
      gatherJobs execute categories = Except.ok (categories.map fun c => some (h c)) := by
  intro categories
  induction categories with
  | nil => exact fun _ => rfl
  | cons c cs ih =>
    intro hall
    simp only [gatherJobs, hall c (List.mem_cons_self c cs),
      ih fun x hx => hall x (List.mem_cons_of_mem c hx), List.map_cons]

theorem mapOrNone_id_somes {β : Type} :
    ∀ l : List β, mapOrNone (fun h => h) (l.map some) = some l := by
  intro l
  induction l with
  | nil => rfl
  | cons b bs ih => simp [mapOrNone, ih]

/-! ### Concrete fixtures used to instantiate the theorems -/

/-- A concrete stand-in for the external four-vector invariant-mass
calculation. -/
def wMass4 : Lepton → Lepton → Lepton → Lepton → ℚ :=
  fun a b c d => a.energy + b.energy + c.energy + d.energy

/-- A lepton with the given charge and type identifier. -/
def wLep (c t : ℤ) : Lepton := ⟨50, 0, 0, 1000, c, t⟩

/-- An event with two electron and two muon candidates, total charge 0,
type-identifier sum 48. -/
def wEvent : Event :=
  ⟨[wLep 1 11, wLep (-1) 11, wLep 1 13, wLep (-1) 13], 1, 1, 11 / 10, 9 / 10⟩

/-- A concrete stand-in for the `re.findall` sample-name extraction. -/
def wRf : String → List String := fun _ => ["ggH125_ZZ4lep"]

/-- A concrete one-entry cross-section table. -/
def wInfos : String → Option XsecInfo :=
  fun s => if s = "ggH125_ZZ4lep" then some ⟨2, 4, 1⟩ else none

/-- A one-event batch of the "Data" category. -/
def wBatchData : Batch := ⟨⟨"Data", "f"⟩, [wEvent]⟩

/-- A one-event batch of a non-"Data" category. -/
def wBatchMC : Batch := ⟨⟨"Signal", "f"⟩, [wEvent]⟩

/-- The processor output on `wBatchData`. -/
def wOutData : ProcessOutput := ⟨[[(4, 1)]], []⟩

/-- The processor output on `wBatchMC`. -/
def wOutMC : ProcessOutput :=
  ⟨[], [⟨[4], "Signal", "nominal", [5000]⟩,
        ⟨[4], "Signal", "scaleFactorUP", [5500]⟩,
        ⟨[4], "Signal", "scaleFactorDOWN", [4500]⟩,
        ⟨[101 / 25], "Signal", "m4lUP", [5000]⟩,
        ⟨[99 / 25], "Signal", "m4lDOWN", [5000]⟩]⟩

/-- The processor output on an event-free non-"Data" batch. -/
def wOutMCEmpty : ProcessOutput :=
  ⟨[], [⟨[], "Signal", "nominal", []⟩,
        ⟨[], "Signal", "scaleFactorUP", []⟩,
        ⟨[], "Signal", "scaleFactorDOWN", []⟩,
        ⟨[], "Signal", "m4lUP", []⟩,
        ⟨[], "Signal", "m4lDOWN", []⟩]⟩

/-- A source event with exactly four leptons. -/
def wSourceEvent : SourceEvent :=
  ⟨4, [1], [2], [3], [4], [1, -1], [11, 13], 5, 2, 3, 4, 5⟩

/-- Evaluation of the processor on the concrete "Data" batch. -/
theorem wProcessData :
    HZZAnalysis.process wMass4 wRf wInfos wBatchData = some wOutData := by
  norm_num [HZZAnalysis.process, wMass4, wRf, wInfos, wBatchData, wOutData, wEvent,
    wLep, selectedEvents, leptonMask, lepton_filter, maskFilter, mapOrNone,
    eventMllll, get_xsec_weight]

/-- Evaluation of the processor on the concrete signal batch. -/
theorem wProcessMC :
    HZZAnalysis.process wMass4 wRf wInfos wBatchMC = some wOutMC := by
  norm_num [HZZAnalysis.process, wMass4, wRf, wInfos, wBatchMC, wOutMC, wEvent,
    wLep, selectedEvents, leptonMask, lepton_filter, maskFilter, mapOrNone,
    eventMllll, get_xsec_weight]
  decide

/-- Evaluation of the processor on an event-free signal batch. -/
theorem wProcessMCEmpty :
    HZZAnalysis.process wMass4 wRf wInfos ⟨⟨"Signal", "f"⟩, []⟩ =
      some wOutMCEmpty := by
  norm_num [HZZAnalysis.process, wMass4, wRf, wInfos, wOutMCEmpty, selectedEvents,
    leptonMask, lepton_filter, maskFilter, mapOrNone, eventMllll, get_xsec_weight]
  decide

/-! ### Claims -/

/-- C2: `lepton_filter` keeps an event if and only if the sum of its lepton
charges is 0 and the sum of its lepton type identifiers is 44, 48 or 52. -/
theorem claim_C2_lepton_filter_iff (cs ts : List (List ℤ)) (i : ℕ)
    (hc : i < cs.length) (ht : i < ts.length) :
    (lepton_filter cs ts).getD i false = true ↔
      (cs.getD i []).sum = 0 ∧
        ((ts.getD i []).sum = 44 ∨ (ts.getD i []).sum = 48 ∨
          (ts.getD i []).sum = 52) := by
  induction cs generalizing ts i with
  | nil => simp at hc
  | cons c cs ih =>
    cases ts with
    | nil => simp at ht
    | cons t ts =>
      cases i with
      | zero =>
        simp only [lepton_filter_cons, List.getD_cons_zero, Bool.and_eq_true,
          Bool.or_eq_true, beq_iff_eq]
        tauto
      | succ n =>
        simp only [lepton_filter_cons, List.getD_cons_succ]
        exact ih ts n (by simpa using hc) (by simpa using ht)

/-- Witness for C2 at a concrete event: charges 1, -1, 1, -1 and types
11, 11, 13, 13 pass the filter. -/
theorem claim_C2_witness :
    (lepton_filter [[1, -1, 1, -1]] [[11, 11, 13, 13]]).getD 0 false = true :=
  (claim_C2_lepton_filter_iff [[1, -1, 1, -1]] [[11, 11, 13, 13]] 0 (by decide)
    (by decide)).mpr (by decide)

/-- C3: for every sample present in the cross-section table,
`get_xsec_weight` returns `(lumi * xsec) / (sumw * red_eff)` with
`lumi = 10000` and the other three factors taken from the table entry. -/
theorem claim_C3_xsec_weight (infos : String → Option XsecInfo) (sample : String)
    (m : XsecInfo) (h : infos sample = some m) :
    get_xsec_weight infos sample =
      some ((10000 * m.xsec) / (m.sumw * m.red_eff)) := by
  simp [get_xsec_weight, h]

/-- Witness for C3 at a concrete table entry. -/
theorem claim_C3_witness :
    get_xsec_weight wInfos "ggH125_ZZ4lep" =
      some ((10000 * (2 : ℚ)) / (4 * 1)) :=
  claim_C3_xsec_weight wInfos "ggH125_ZZ4lep" ⟨2, 4, 1⟩ (by decide)

/-- C4: the query keeps exactly the events with `lep_n == 4`; every kept
event carries the lepton kinematic and identification columns, and
`scaleFactorUP` and `scaleFactorDOWN` are the nominal four-factor
scale-factor product times 1.1 and times 0.9. -/
theorem claim_C4_lepton_query (source : List SourceEvent) :
    ((∀ q ∈ get_lepton_query source, ∃ e ∈ source, e.lep_n = 4 ∧ q = querySelect e) ∧
      ∀ e ∈ source, e.lep_n = 4 → querySelect e ∈ get_lepton_query source) ∧
    ∀ e : SourceEvent,
      (querySelect e).lep_pt = e.lep_pt ∧
      (querySelect e).lep_eta = e.lep_eta ∧
      (querySelect e).lep_phi = e.lep_phi ∧
      (querySelect e).lep_energy = e.lep_E ∧
      (querySelect e).lep_charge = e.lep_charge ∧
      (querySelect e).lep_typeid = e.lep_type ∧
      (querySelect e).scaleFactorUP = (querySelect e).scaleFactor * (11 / 10) ∧
      (querySelect e).scaleFactorDOWN = (querySelect e).scaleFactor * (9 / 10) := by
  refine ⟨⟨?_, ?_⟩, ?_⟩
  · intro q hq
    simp only [get_lepton_query, List.mem_map, List.mem_filter, beq_iff_eq] at hq
    obtain ⟨e, ⟨he, hn⟩, rfl⟩ := hq
    exact ⟨e, he, hn, rfl⟩
  · intro e he hn
    simp only [get_lepton_query, List.mem_map, List.mem_filter, beq_iff_eq]
    exact ⟨e, ⟨he, hn⟩, rfl⟩
  · exact fun e => ⟨rfl, rfl, rfl, rfl, rfl, rfl, rfl, rfl⟩

/-- Witness for C4 at a concrete four-lepton source event. -/
theorem claim_C4_witness :
    querySelect wSourceEvent ∈ get_lepton_query [wSourceEvent] ∧
      (querySelect wSourceEvent).scaleFactorUP =
        (querySelect wSourceEvent).scaleFactor * (11 / 10) :=
  ⟨(claim_C4_lepton_query [wSourceEvent]).1.2 wSourceEvent
      (List.mem_singleton.mpr rfl) rfl,
    ((claim_C4_lepton_query [wSourceEvent]).2 wSourceEvent).2.2.2.2.2.2.1⟩

/-- C1: for every non-"Data" batch on which processing succeeds,
`HZZAnalysis.process` fills the MC histogram exactly once per weight
variant, in the order nominal, scaleFactorUP, scaleFactorDOWN, m4lUP,
m4lDOWN. -/
theorem claim_C1_five_variants (mass4 : Lepton → Lepton → Lepton → Lepton → ℚ)
    (re_findall : String → List String) (infos : String → Option XsecInfo)
    (batch : Batch) (out : ProcessOutput)
    (hcat : batch.metadata.dataset_category ≠ "Data")
    (hp : HZZAnalysis.process mass4 re_findall infos batch = some out) :
    out.MC.map MCFill.variation =
      ["nominal", "scaleFactorUP", "scaleFactorDOWN", "m4lUP", "m4lDOWN"] := by
  simp only [HZZAnalysis.process] at hp
  split at hp
  · exact Option.noConfusion hp
  · rw [if_neg hcat] at hp
    split at hp
    · exact Option.noConfusion hp
    · split at hp
      · exact Option.noConfusion hp
      · rw [Option.some.injEq] at hp
        subst hp
        rfl

/-- Witness for C1 at a concrete one-event signal batch. -/
theorem claim_C1_witness :
    wOutMC.MC.map MCFill.variation =
      ["nominal", "scaleFactorUP", "scaleFactorDOWN", "m4lUP", "m4lDOWN"] :=
  claim_C1_five_variants wMass4 wRf wInfos wBatchMC wOutMC (by decide) wProcessMC

/-- C8: for every non-"Data" batch on which processing succeeds, the m4lUP
and m4lDOWN fills use the invariant mass times 1.01 and 0.99 with the
unchanged nominal weights, while the scaleFactorUP and scaleFactorDOWN
fills keep the unchanged invariant mass and vary only the weight slot. -/
theorem claim_C8_variation_semantics (mass4 : Lepton → Lepton → Lepton → Lepton → ℚ)
    (re_findall : String → List String) (infos : String → Option XsecInfo)
    (batch : Batch) (out : ProcessOutput)
    (hcat : batch.metadata.dataset_category ≠ "Data")
    (hp : HZZAnalysis.process mass4 re_findall infos batch = some out) :
    ∃ mll w wup wdn,
      mapOrNone (eventMllll mass4) (selectedEvents batch.events) = some mll ∧
      out.MC =
        [⟨mll, batch.metadata.dataset_category, "nominal", w⟩,
         ⟨mll, batch.metadata.dataset_category, "scaleFactorUP", wup⟩,
         ⟨mll, batch.metadata.dataset_category, "scaleFactorDOWN", wdn⟩,
         ⟨mll.map (· * (101 / 100)), batch.metadata.dataset_category, "m4lUP", w⟩,
         ⟨mll.map (· * (99 / 100)), batch.metadata.dataset_category, "m4lDOWN", w⟩] := by
  simp only [HZZAnalysis.process] at hp
  split at hp
  · exact Option.noConfusion hp
  · rename_i mll hm
    rw [if_neg hcat] at hp
    split at hp
    · exact Option.noConfusion hp
    · split at hp
      · exact Option.noConfusion hp
      · rw [Option.some.injEq] at hp
        subst hp
        exact ⟨mll, _, _, _, hm, rfl⟩

/-- Witness for C8 at a concrete one-event signal batch. -/
theorem claim_C8_witness :
    ∃ mll w wup wdn,
      mapOrNone (eventMllll wMass4) (selectedEvents wBatchMC.events) = some mll ∧
      wOutMC.MC =
        [⟨mll, "Signal", "nominal", w⟩,
         ⟨mll, "Signal", "scaleFactorUP", wup⟩,
         ⟨mll, "Signal", "scaleFactorDOWN", wdn⟩,
         ⟨mll.map (· * (101 / 100)), "Signal", "m4lUP", w⟩,
         ⟨mll.map (· * (99 / 100)), "Signal", "m4lDOWN", w⟩] :=
  claim_C8_variation_semantics wMass4 wRf wInfos wBatchMC wOutMC (by decide)
    wProcessMC

/-- C9: when every event of the batch has exactly four leptons (as the
upstream query guarantees via `lep_n == 4`), the `leptons[:, 0] ..
leptons[:, 3]` indexing of the invariant-mass calculation never goes out of
bounds: the `none` branch of the embedded calculation is unreachable. -/
theorem claim_C9_no_oob (mass4 : Lepton → Lepton → Lepton → Lepton → ℚ)
    (batch : Batch) (h4 : ∀ e ∈ batch.events, e.leptons.length = 4) :
    ∃ l, mapOrNone (eventMllll mass4) (selectedEvents batch.events) = some l := by
  apply mapOrNone_isSome
  intro e he
  have h := h4 e (mem_maskFilter he)
  rcases e with ⟨ls, mw, sf, sfu, sfd⟩
  simp only at h
  cases ls with
  | nil => simp at h
  | cons a t1 =>
    cases t1 with
    | nil => simp at h
    | cons b t2 =>
      cases t2 with
      | nil => simp at h
      | cons c t3 =>
        cases t3 with
        | nil => simp at h
        | cons d t4 => simp [eventMllll]

/-- Witness for C9 at a concrete batch of four-lepton events. -/
theorem claim_C9_witness :
    ∃ l, mapOrNone (eventMllll wMass4) (selectedEvents wBatchData.events) = some l :=
  claim_C9_no_oob wMass4 wBatchData (by decide)

/-- C10: a "Data" batch fills only the data histogram, unweighted (weight 1
per passing event), and the MC histogram stays empty; a non-"Data" batch
fills only the MC histogram and the data histogram stays empty. -/
theorem claim_C10_frame (mass4 : Lepton → Lepton → Lepton → Lepton → ℚ)
    (re_findall : String → List String) (infos : String → Option XsecInfo)
    (batch : Batch) (out : ProcessOutput)
    (hp : HZZAnalysis.process mass4 re_findall infos batch = some out) :
    (batch.metadata.dataset_category = "Data" →
      out.MC = [] ∧
        ∃ mll, mapOrNone (eventMllll mass4) (selectedEvents batch.events) = some mll ∧
          out.data = [mll.map fun m => (m, 1)]) ∧
    (batch.metadata.dataset_category ≠ "Data" → out.data = []) := by
  simp only [HZZAnalysis.process] at hp
  split at hp
  · exact Option.noConfusion hp
  · rename_i mll hm
    by_cases hd : batch.metadata.dataset_category = "Data"
    · rw [if_pos hd, Option.some.injEq] at hp
      subst hp
      exact ⟨fun _ => ⟨rfl, mll, hm, rfl⟩, fun h => absurd hd h⟩
    · rw [if_neg hd] at hp
      split at hp
      · exact Option.noConfusion hp
      · split at hp
        · exact Option.noConfusion hp
        · rw [Option.some.injEq] at hp
          subst hp
          exact ⟨fun h => absurd h hd, fun _ => rfl⟩

/-- Witness for C10 at a concrete "Data" batch and a concrete signal batch. -/
theorem claim_C10_witness :
    (wOutData.MC = [] ∧
      ∃ mll, mapOrNone (eventMllll wMass4) (selectedEvents wBatchData.events) = some mll ∧
        wOutData.data = [mll.map fun m => (m, 1)]) ∧
    wOutMC.data = [] :=
  ⟨(claim_C10_frame wMass4 wRf wInfos wBatchData wOutData wProcessData).1 rfl,
    (claim_C10_frame wMass4 wRf wInfos wBatchMC wOutMC wProcessMC).2 (by decide)⟩

/-- Counterexample to C6: `run_updates_stream`, a function defined in the
notebook, catches the exception "boom" raised by the stream and replaces it
with an exception of its own. -/
theorem claim_C6_counterexample :
    run_updates_stream (α := ℕ) [Except.error "boom"] "Data" =
        Except.error "Failure while processing Data" ∧
      ("Failure while processing Data" : String) ≠ "boom" :=
  ⟨rfl, by decide⟩

theorem runUpdatesLoop_error {α : Type} (name err : String)
    (rest : List (Except String α)) :
    ∀ (pre : List (Except String α)) (acc : Option α),
      (∀ x ∈ pre, ∃ a, x = Except.ok a) →
      runUpdatesLoop name acc (pre ++ Except.error err :: rest) =
        Except.error ("Failure while processing " ++ name) := by
  intro pre
  induction pre with
  | nil => intro acc _; rfl
  | cons x xs ih =>
    intro acc hok
    obtain ⟨a, ha⟩ := hok x (List.mem_cons_self x xs)
    subst ha
    simp only [List.cons_append, runUpdatesLoop]
    exact ih (some a) fun y hy => hok y (List.mem_cons_of_mem _ hy)

/-- C6 amended: the selection, weighting and histogram-filling functions
perform no failure handling of their own, but `run_updates_stream` does
catch any exception raised while consuming the accumulator stream and
raises its own exception naming the dataset being processed. -/
theorem claim_C6_amended_wrapping {α : Type} (pre : List (Except String α))
    (err : String) (rest : List (Except String α)) (name : String)
    (hok : ∀ x ∈ pre, ∃ a, x = Except.ok a) :
    run_updates_stream (pre ++ Except.error err :: rest) name =
      Except.error ("Failure while processing " ++ name) :=
  runUpdatesLoop_error name err rest pre none hok

/-- Witness for the amended C6 at a concrete stream. -/
theorem claim_C6_witness :
    run_updates_stream [Except.ok (1 : ℕ), Except.error "boom"] "Data" =
      Except.error ("Failure while processing " ++ "Data") :=
  claim_C6_amended_wrapping [Except.ok 1] "boom" [] "Data"
    (fun _x hx => ⟨1, List.mem_singleton.mp hx⟩)

/-- C7: `produce_all_histograms` starts one job per dataset category,
gathers each exactly once, and returns the sum of the per-category data
histograms under "data" and the sum of the per-category MC histograms
under "MC". -/
theorem claim_C7_fan_out_fan_in {H : Type} [Zero H] [Add H]
    (categories : List String)
    (execute : String → List (Except String (HistPair H)))
    (h : String → HistPair H)
    (hall : ∀ c ∈ categories, run_updates_stream (execute c) c = Except.ok (some (h c))) :
    produce_all_histograms categories execute =
      Except.ok (some
        { data := histSum ((categories.map h).map HistPair.data)
          MC := histSum ((categories.map h).map HistPair.MC) }) := by
  have hmap : (categories.map fun c => some (h c)) = (categories.map h).map some := by
    simp [List.map_map]
  simp only [produce_all_histograms, gatherJobs_ok execute h categories hall, hmap,
    mapOrNone_id_somes]

/-- Witness for C7 at two concrete categories with constant jobs. -/
theorem claim_C7_witness :
    produce_all_histograms ["Data", "MC"]
        (fun _ => [Except.ok (⟨1, 2⟩ : HistPair ℕ)]) =
      Except.ok (some
        { data := histSum (((["Data", "MC"]).map fun _ => (⟨1, 2⟩ : HistPair ℕ)).map HistPair.data)
          MC := histSum (((["Data", "MC"]).map fun _ => (⟨1, 2⟩ : HistPair ℕ)).map HistPair.MC) }) :=
  claim_C7_fan_out_fan_in ["Data", "MC"] (fun _ => [Except.ok ⟨1, 2⟩])
    (fun _ => ⟨1, 2⟩) (fun _ _ => rfl)

/-- Counterexample to C5: two batches with identical events that differ only
in the dataset category are processed differently, so `HZZAnalysis.process`
does branch on the dataset category. -/
theorem claim_C5_counterexample :
    HZZAnalysis.process wMass4 wRf wInfos wBatchData ≠
      HZZAnalysis.process wMass4 wRf wInfos wBatchMC := by
  intro h
  rw [wProcessData, wProcessMC] at h
  exact absurd (congrArg (fun o => (Option.map ProcessOutput.MC o).getD [] |>.length) h)
    (by decide)

/-- Fill-call-wise concatenation of two MC fill calls. -/
def MCFill.app (f g : MCFill) : MCFill :=
  ⟨f.mllll ++ g.mllll, f.dataset, f.variation, f.weight ++ g.weight⟩

/-- Fill-call-wise concatenation of two processor outputs. -/
def ProcessOutput.app (o1 o2 : ProcessOutput) : ProcessOutput :=
  ⟨List.zipWith (· ++ ·) o1.data o2.data, List.zipWith MCFill.app o1.MC o2.MC⟩

/-- C5 amended: the per-event selection, weighting and histogram-filling
logic is un-branching on the events — processing the concatenation of two
event lists gives, fill call by fill call, the concatenation of the values
and weights produced for each list — but `HZZAnalysis.process` does branch
once per batch on the dataset category ("Data" versus MC). -/
theorem claim_C5_eventwise (mass4 : Lepton → Lepton → Lepton → Lepton → ℚ)
    (re_findall : String → List String) (infos : String → Option XsecInfo)
    (md : Metadata) (es1 es2 : List Event) (o1 o2 : ProcessOutput)
    (h1 : HZZAnalysis.process mass4 re_findall infos ⟨md, es1⟩ = some o1)
    (h2 : HZZAnalysis.process mass4 re_findall infos ⟨md, es2⟩ = some o2) :
    HZZAnalysis.process mass4 re_findall infos ⟨md, es1 ++ es2⟩ =
      some (o1.app o2) := by
  simp only [HZZAnalysis.process] at h1 h2 ⊢
  split at h1
  · exact Option.noConfusion h1
  · rename_i m1 hm1
    split at h2
    · exact Option.noConfusion h2
    · rename_i m2 hm2
      rw [selectedEvents_append,
        mapOrNone_append (eventMllll mass4) _ _ m1 m2 hm1 hm2]
      by_cases hd : md.dataset_category = "Data"
      · rw [if_pos hd, Option.some.injEq] at h1
        rw [if_pos hd, Option.some.injEq] at h2
        subst h1
        subst h2
        simp [hd, ProcessOutput.app, List.map_append]
      · rw [if_neg hd] at h1 h2
        split at h1
        · exact Option.noConfusion h1
        · rename_i sample hs
          split at h1
          · exact Option.noConfusion h1
          · rename_i xw hx
            rw [hs] at h2
            simp only [hx, Option.some.injEq] at h1 h2
            subst h1
            subst h2
            simp [hd, ProcessOutput.app, MCFill.app, List.map_append]

/-- Witness for the amended C5: the one-event signal batch concatenated
with the empty batch. -/
theorem claim_C5_witness :
    HZZAnalysis.process wMass4 wRf wInfos ⟨⟨"Signal", "f"⟩, [wEvent] ++ []⟩ =
      some (wOutMC.app wOutMCEmpty) :=
  claim_C5_eventwise wMass4 wRf wInfos ⟨"Signal", "f"⟩ [wEvent] [] wOutMC
    wOutMCEmpty wProcessMC wProcessMCEmpty

end HiggsDemo
